import Mathlib

/-
  Verification development for the pik-laskutin2 invoicing core.

  Shallow embedding conventions:
  * Money is represented in integer cents: the source stores amounts as
    `Decimal` quantized to 2 fractional digits (`QuantizedDecimalField`,
    `Invoice.total_amount`), so every amount is an exact multiple of 0.01
    and integer cents model the arithmetic exactly (quantizing a sum of
    quantized values is the identity).
  * Dates are day ordinals (`Nat`); only `≤`/`<`/`=` comparisons on dates
    are used by the modelled code.  Calendar years for the cap accumulator
    are a separate `Nat` field.
  * Django querysets over an account's entries are `List`s; `filter(...)`
    is `List.filter`, `aggregate(Sum(amount))['total'] or 0.00` is the sum
    of the mapped amounts (empty sum is 0, matching the `or Decimal(0.00)`
    fallback), `order_by(date)` is a stable insertion sort by date.
-/

namespace Pik

/-- Ledger entry, from `invoicing/models.py` `AccountEntry`: the fields the
accounting and invoicing logic reads (date, amount in cents, the
`additive` flag and the `visible` flag). -/
structure AccountEntry where
  date : Nat
  amount : Int
  additive : Bool
  visible : Bool
deriving DecidableEq

/-- Sum of the amounts of a list of entries, in cents.  Models
`aggregate(total=Sum(amount))[total] or Decimal(0.00)`. -/
def sumAmounts (l : List AccountEntry) : Int :=
  (l.map (fun e => e.amount)).sum

/-- Stable insert for sorting entries by ascending date. -/
def insertByDate (e : AccountEntry) : List AccountEntry → List AccountEntry
  | [] => [e]
  | x :: xs => if e.date < x.date then e :: x :: xs else x :: insertByDate e xs

/-- Stable sort by ascending date; models Django `order_by(date)`. -/
def orderByDate : List AccountEntry → List AccountEntry
  | [] => []
  | e :: es => insertByDate e (orderByDate es)

namespace AccountBalance

/-- From `accounting.py:14-16`: the most recent balance entry
(`additive=False`), i.e. `entries.filter(additive=False).order_by(-date).first()`.
Among equal dates the first one encountered is kept (the source imposes no
secondary ordering). -/
def get_latest_balance_entry (es : List AccountEntry) : Option AccountEntry :=
  (es.filter (fun e => !e.additive)).foldl
    (fun acc e =>
      match acc with
      | none => some e
      | some b => if b.date < e.date then some e else some b)
    none

/-- From `accounting.py:18-28`: balance up to `until_date`.  The entry list
is date-filtered by `until_date` when given, but the latest balance entry is
looked up over the whole history (the source calls
`self.get_latest_balance_entry()` on the unfiltered entry set), and the
result is the sum of the remaining entries dated on or after it. -/
def get_balance (es : List AccountEntry) (until_date : Option Nat) : Int :=
  let entries := match until_date with
    | some d => es.filter (fun e => e.date ≤ d)
    | none => es
  let entries := match get_latest_balance_entry es with
    | some lb => entries.filter (fun e => lb.date ≤ e.date)
    | none => entries
  sumAmounts entries

/-- From `accounting.py:50-58`: all entries dated on or after the latest
balance entry, ordered by date. -/
def get_entries_since_last_balance (es : List AccountEntry) : List AccountEntry :=
  let entries := match get_latest_balance_entry es with
    | some lb => es.filter (fun e => lb.date ≤ e.date)
    | none => es
  orderByDate entries

/-- From `accounting.py:30-48`: walk the entries since the last balance
entry with a running additive total starting at 0, remembering the date of
the last entry whose post-apply total is ≤ 0; fall back to the latest
balance entry's date (or the first entry's date) when no such entry exists;
return `none` when the current balance is ≤ 0. -/
def get_last_non_overdue_date (es : List AccountEntry) : Option Nat :=
  if get_balance es none ≤ 0 then none
  else
    let entries := get_entries_since_last_balance es
    let result := entries.foldl
      (fun (st : Int × Option Nat) e =>
        let rb := st.1 + e.amount
        (rb, if rb ≤ 0 then some e.date else st.2))
      (0, none)
    match result.2 with
    | some d => some d
    | none =>
      match get_latest_balance_entry es with
      | some lb => some lb.date
      | none => (entries.head?).map (fun e => e.date)

end AccountBalance

/-! ### Balance sequence and invoice assembly

`invoice.py:230` and `models.py:38` call `AccountBalance(account).compute()`,
which is not defined anywhere in the source (see the claims about attribute
errors); the invoice-assembly walk consumes its result. -/

/-- Modelled from the spec: §4.4 running-balance step — `additive` entries
add their amount to the running total, non-additive (reset) entries replace
it with their own amount. -/
def applyEntry (b : Int) (e : AccountEntry) : Int :=
  if e.additive then b + e.amount else e.amount

/-- An entry paired with the running balance immediately after applying it
(the `balance_entry` objects iterated by the invoice command). -/
structure BalanceEntry where
  entry : AccountEntry
  balance : Int
deriving DecidableEq

/-- Modelled from the spec: §4.4 — the running-balance sequence starting
from `b`, recording per entry the post-apply balance.  This is the first
component of the undefined `AccountBalance.compute()` consumed at
`invoice.py:230`. -/
def computeSeq (b : Int) : List AccountEntry → List BalanceEntry
  | [] => []
  | e :: es => ⟨e, applyEntry b e⟩ :: computeSeq (applyEntry b e) es

/-- Modelled from the spec: §4.4 — the current balance is the running total
after the last entry (the starting value for an empty list).  This is the
second component of the undefined `AccountBalance.compute()`. -/
def finalBal (b : Int) : List AccountEntry → Int
  | [] => b
  | e :: es => finalBal (applyEntry b e) es

/-- Backward walk of `invoice.py:283-301` over the reversed balance-entry
sequence: stop (excluding the entry) at a zero post-apply balance once the
zero quota is exhausted (unless `--include-all-entries`), collect the entry
otherwise, and stop after collecting a non-additive entry. -/
def selectEntriesRev (includeAll : Bool) : Nat → List BalanceEntry → List BalanceEntry
  | _, [] => []
  | zerosLeft, be :: rest =>
    if be.balance == 0 && !includeAll && zerosLeft == 0 then []
    else
      let zl := if be.balance == 0 && !includeAll then zerosLeft - 1 else zerosLeft
      if be.entry.additive then be :: selectEntriesRev includeAll zl rest
      else [be]

/-- Per-account invoice assembly from `invoice.py:250-313`: abort with an
error when an invisible entry has a non-zero amount (the `ValueError` at
`invoice.py:265`), otherwise drop invisible entries, walk the reversed
balance sequence backward (skipping one extra zero balance when the account
is in credit) and return the collected entries. -/
def assembleForAccount (includeAll : Bool) (es : List AccountEntry) :
    Except String (List AccountEntry) :=
  let bes := computeSeq 0 es
  let balance := finalBal 0 es
  if bes.any (fun be => !be.entry.visible && be.entry.amount != 0) then
    Except.error "invisible entries with non-zero amounts"
  else
    let besVisible := bes.filter (fun be => be.entry.visible)
    let zerosToSkip : Nat := if balance < 0 then 1 else 0
    Except.ok ((selectEntriesRev includeAll zerosToSkip besVisible.reverse).map
      (fun be => be.entry))

/-! ### Price-cap wrapper (`rules.py` `CappedRule`) -/

/-- Candidate ledger entry as seen by `CappedRule`, from
`invoicing/models.py` `AccountEntry` plus its `AccountEntryTag` rows: the
calendar year of its date, amount in cents, description, tag values, and a
flag recording that `entry.delete()` was called on it. -/
structure CapEntry where
  year : Nat
  amount : Int
  description : String
  tags : List String
  deleted : Bool
deriving DecidableEq

/-- Tag value `cap:<cap_id>` used by `CappedRule` (`rules.py:455,476`). -/
def capTag (capId : String) : String := "cap:" ++ capId

namespace CappedRule

/-- From `rules.py:449-456` (`get_accumulated_amount`): sum of the amounts
of the account's saved entries whose date falls in `nowYear`
(`timezone.now().year` — the year at processing time, not the entry's
year) and that carry the tag `cap:<cap_id>`.  The store `db` holds the
account's saved tagged entries; candidate entries are saved untagged by the
inner rule and never match the tag filter. -/
def get_accumulated_amount (capId : String) (nowYear : Nat) (db : List CapEntry) : Int :=
  ((db.filter (fun e => e.year == nowYear && e.tags.contains (capTag capId))).map
    (fun e => e.amount)).sum

/-- One iteration of `rules.py:458-479` (`_filter_entries`): read the
accumulated total; at or over the cap, call `delete()` when
`drop_over_cap` is set and then — the loop body has no `continue`, so
control falls through in both cases — zero the amount and append the cap
note; below the cap, clip to `cap - accumulated` (appending the note) when
the amount would cross the cap; finally tag the entry `cap:<cap_id>` and
save it.  Returns the updated store and the yielded entry. -/
def capStep (capId : String) (cap : Int) (dropOverCap : Bool) (note : String)
    (nowYear : Nat) (db : List CapEntry) (e : CapEntry) : List CapEntry × CapEntry :=
  let accumulated := get_accumulated_amount capId nowYear db
  let e :=
    if cap ≤ accumulated then
      let e := if dropOverCap then { e with deleted := true } else e
      { e with description := e.description ++ ", " ++ note, amount := 0 }
    else
      if cap < accumulated + e.amount then
        { e with description := e.description ++ ", " ++ note, amount := cap - accumulated }
      else e
  let e := { e with tags := e.tags ++ [capTag capId] }
  (db ++ [e], e)

/-- The full `_filter_entries` generator over the candidate entries of one
`invoice` call (and, because the accumulated total is re-read from the
store on every iteration, equally over candidates of successive calls):
threads the store through `capStep` and collects the yielded entries. -/
def capRun (capId : String) (cap : Int) (dropOverCap : Bool) (note : String)
    (nowYear : Nat) (db : List CapEntry) : List CapEntry → List CapEntry × List CapEntry
  | [] => (db, [])
  | e :: es =>
    let step := capStep capId cap dropOverCap note nowYear db e
    let rest := capRun capId cap dropOverCap note nowYear step.1 es
    (rest.1, step.2 :: rest.2)

end CappedRule

/-! ### Minimum-duration wrapper (`rules.py` `MinimumDurationRule`) -/

/-- Event as seen by `MinimumDurationRule`: whether it is a `Flight`
(`isinstance(event, Flight)`) and its mutable `duration` field (in
hundredths of a minute, matching the `Decimal(5,2)` column). -/
structure FlightEvent where
  isFlight : Bool
  duration : Int
deriving DecidableEq

/-- An invoice line produced by a wrapped rule: description and amount. -/
structure InvoiceLine where
  description : String
  amount : Int
deriving DecidableEq

namespace MinimumDurationRule

/-- From `rules.py:268-269`: minimum billing applies when any aircraft
filter matches and the duration is below the floor. -/
def applies (minDuration : Int) (aircraftMatch : FlightEvent → Bool) (ev : FlightEvent) : Bool :=
  aircraftMatch ev && decide (ev.duration < minDuration)

/-- The event the wrapped rule is evaluated against: duration temporarily
overridden to the floor when minimum billing applies (`rules.py:271-273`). -/
def seenEvent (minDuration : Int) (aircraftMatch : FlightEvent → Bool) (ev : FlightEvent) :
    FlightEvent :=
  if applies minDuration aircraftMatch ev then { ev with duration := minDuration } else ev

/-- From `rules.py:263-287` (`invoice`): for a `Flight`, override the
duration when applicable, evaluate the wrapped rule, restore the original
duration, and append the floor-notice text to each produced line.  The
wrapped rule is a function that either returns lines or raises
(`Except.error`); the source has no `try...finally`, so when the wrapped
rule raises, the restoration at `rules.py:279` never executes and the
returned event state keeps the overridden duration.  Returns the outcome
together with the event's final state. -/
def invoice (minDuration : Int) (aircraftMatch : FlightEvent → Bool)
    (minText : Option String) (inner : FlightEvent → Except String (List InvoiceLine))
    (ev : FlightEvent) : Except String (List InvoiceLine) × FlightEvent :=
  if ev.isFlight then
    let ap := applies minDuration aircraftMatch ev
    let ev' := seenEvent minDuration aircraftMatch ev
    match inner ev' with
    | Except.error msg => (Except.error msg, ev')
    | Except.ok lines =>
      let restored := { ev' with duration := ev.duration }
      let lines :=
        match minText with
        | some t =>
          if ap && !lines.isEmpty then
            lines.map (fun l => { l with description := l.description ++ " " ++ t })
          else lines
        | none => lines
      (Except.ok lines, restored)
  else (inner ev, ev)

end MinimumDurationRule

/-! ### Rule engine (`logic/engine.py`) -/

/-- Ledger entry as linked to an event by the engine: amount in cents,
`additive` flag (the refund entry is created without an `additive` keyword,
so it takes the model default `True`), and description. -/
structure EngineEntry where
  amount : Int
  additive : Bool
  description : String
deriving DecidableEq

/-- Event state carried through the engine: the configuration reference id,
the ledger entries linked to the event (`event.account_entries`), and the
`refund_entry` link set by `refund_event`. -/
structure EngineEvent where
  referenceId : String
  entries : List EngineEntry
  refundEntry : Option EngineEntry
deriving DecidableEq

namespace RuleEngine

/-- From `operations/models.py:55-57`: an event has been refunded exactly
when its `refund_entry` link is set. -/
def has_been_refunded (ev : EngineEvent) : Bool :=
  ev.refundEntry.isSome

/-- From `engine.py:18-37` (`process_event`): skip events whose reference
id is on the configured exclusion list; otherwise run every rule, save each
produced entry and link it to the event.  The rules are modelled as a
function from the event to the entries they produce; nothing inspects the
entries already linked to the event (`AccountEntry.check_duplicate` at
`models.py:165-168` is an unimplemented `pass` stub and is never called).
Returns the produced entries and the updated event state. -/
def process_event (noInvoicingIds : List String)
    (rules : EngineEvent → List EngineEntry) (ev : EngineEvent) :
    List EngineEntry × EngineEvent :=
  if noInvoicingIds.contains ev.referenceId then ([], ev)
  else
    let newEntries := rules ev
    (newEntries, { ev with entries := ev.entries ++ newEntries })

/-- From `engine.py:52-83` (`refund_event`): no-op (with a warning) when
the event has already been refunded or the sum of its linked additive
entries is zero; otherwise create one compensating entry with the negated
total, save it (linking it to the event), and record it as the event's
refund entry. -/
def refund_event (desc : String) (ev : EngineEvent) :
    Option EngineEntry × EngineEvent :=
  if has_been_refunded ev then (none, ev)
  else
    let total := ((ev.entries.filter (fun e => e.additive)).map (fun e => e.amount)).sum
    if total == 0 then (none, ev)
    else
      let refund : EngineEntry := ⟨-total, true, desc⟩
      (some refund, { ev with entries := ev.entries ++ [refund], refundEntry := some refund })

end RuleEngine

/-! ### Python attribute lookup for the missing balance methods -/

/-- Python attribute lookup over a class's defined attribute names:
`getattr` succeeds exactly on a defined name and otherwise raises
`AttributeError`. -/
def pyGetattr (attrs : List String) (name : String) : Except String String :=
  if attrs.contains name then Except.ok name
  else Except.error ("AttributeError: " ++ name)

/-- The methods defined by `class AccountBalance` in
`invoicing/logic/accounting.py` (lines 6-73), beside `__init__`. -/
def accountBalanceMethods : List String :=
  ["get_latest_balance_entry", "get_balance", "get_last_non_overdue_date",
   "get_entries_since_last_balance", "get_entries_for_invoice"]

/-- The attributes defined by `class Account` in `invoicing/models.py`
(lines 14-67): fields, properties and methods. -/
def accountAttributes : List String :=
  ["id", "member", "name", "created_at", "save", "balance", "overdue_since",
   "days_overdue", "last_payment", "days_since_last_payment", "entries", "invoices",
   "events", "accounts"]

/-- The call `AccountBalance(self).compute()` made by the `Account.balance`
property (`models.py:38`) and by the invoice command (`invoice.py:230`). -/
def accountBalanceComputeCall : Except String String :=
  pyGetattr accountBalanceMethods "compute"

/-- The call `account.compute_balance(end_date=end_date)` made by the
balance-report command (`calculatebalances.py:49`) and by
`exportaccounts.py:60`. -/
def accountComputeBalanceCall : Except String String :=
  pyGetattr accountAttributes "compute_balance"

/-! ### Declarative reference functions -/

/-- Post-apply running totals of the additive walk starting at `b` (the
`running_balance` values of `accounting.py:36-42`), one per entry. -/
def postBals (b : Int) : List AccountEntry → List Int
  | [] => []
  | e :: es => (b + e.amount) :: postBals (b + e.amount) es

/-- Definition following the claim's words, for comparison with the
source's `get_last_non_overdue_date`: when the current balance is positive,
scan the running-balance sequence forward and return the date of the first
entry whose post-apply balance is > 0; if no such entry exists, fall back
to the first entry's date. -/
def claimed_last_non_overdue_date (es : List AccountEntry) : Option Nat :=
  if AccountBalance.get_balance es none ≤ 0 then none
  else
    let entries := AccountBalance.get_entries_since_last_balance es
    match (entries.zip (postBals 0 entries)).find? (fun p => 0 < p.2) with
    | some p => some p.1.date
    | none => entries.head?.map (fun e => e.date)

/-- Date of the last entry whose post-apply running balance (starting at
`b`) is ≤ 0, if any. -/
def lastNonPositiveDate (b : Int) (l : List AccountEntry) : Option Nat :=
  (((l.zip (postBals b l)).filter (fun p => p.2 ≤ 0)).getLast?).map (fun p => p.1.date)

/-! ### Concrete scenarios -/

/-- Scenario B of the spec: +100 additive, then a −40 non-additive reset,
then +20 additive (amounts in cents, dates 1 < 2 < 3, all visible). -/
def scenarioB : List AccountEntry :=
  [⟨1, 10000, true, true⟩, ⟨2, -4000, false, true⟩, ⟨3, 2000, true, true⟩]

/-- An account with an invisible zero-amount reset entry between two
visible additive entries. -/
def invisibleResetEntries : List AccountEntry :=
  [⟨1, 5000, true, true⟩, ⟨2, 0, false, false⟩, ⟨3, 3000, true, true⟩]

/-- Entries +10, −10, +5 (all additive, in cents): the running balance dips
back to zero at the second entry. -/
def dipToZeroEntries : List AccountEntry :=
  [⟨1, 1000, true, true⟩, ⟨2, -1000, true, true⟩, ⟨3, 500, true, true⟩]

/-- The cap note produced by `CappedRule.__init__` for a 90 € cap with the
default description. -/
def capNote90 : String := "rajattu hintakattoon (90€)"

/-- Qualifying candidate entry of 60 € dated in the processing year. -/
def capCand60 : CapEntry := ⟨2025, 6000, "Lento", [], false⟩

/-- Qualifying candidate entry of 50 € dated in the processing year. -/
def capCand50 : CapEntry := ⟨2025, 5000, "Lento", [], false⟩

/-- Qualifying candidate entry of 10 € dated in the processing year. -/
def capCand10 : CapEntry := ⟨2025, 1000, "Lento", [], false⟩

/-- Qualifying candidate entry of 60 € dated in the year before the
processing year. -/
def capCandPrevYear60 : CapEntry := ⟨2024, 6000, "Lento", [], false⟩

/-- Event with two linked charge entries of 45 € and 15 €, not refunded. -/
def refundScenarioEvent : EngineEvent :=
  ⟨"1001", [⟨4500, true, "Lento a"⟩, ⟨1500, true, "Lento b"⟩], none⟩

/-- The compensating entry `refund_event` creates for
`refundScenarioEvent`. -/
def refundScenarioEntry : EngineEntry := ⟨-6000, true, "Korjaus: Hyvitys"⟩

/-- A rule set producing one 100 € charge entry for any event, as a
`FlightRule` does for a matching flight. -/
def flightChargeRule : EngineEvent → List EngineEntry :=
  fun _ => [⟨10000, true, "Lento, OH-952, 60 min"⟩]

/-! ### Bookkeeping for the backward invoice walk

The walk of `invoice.py:287-301` runs over the reversed balance-entry
sequence; these definitions name the quantities its analysis tracks. -/

/-- Balance recorded at the head of a reversed balance-entry list — the
final running balance of the corresponding chronological list — with
default `b` for the empty list. -/
def headBalD (b : Int) : List BalanceEntry → Int
  | [] => b
  | be :: _ => be.balance

/-- Coherence of a reversed running-balance list: each recorded balance is
obtained by applying its entry to the balance recorded just below it, with
`b` at the chronological start. -/
def goodRevFrom (b : Int) : List BalanceEntry → Prop
  | [] => True
  | be :: rest => be.balance = applyEntry (headBalD b rest) be.entry ∧ goodRevFrom b rest

/-- Running balance at the point where the backward walk of
`selectEntriesRev` stops: the balance of an excluded zero-balance stop
entry, the pre-apply balance of a collected non-additive stop entry, or `b`
when the list is exhausted. -/
def exitBalRev (b : Int) (includeAll : Bool) : Nat → List BalanceEntry → Int
  | _, [] => b
  | zerosLeft, be :: rest =>
    if be.balance == 0 && !includeAll && zerosLeft == 0 then be.balance
    else
      let zl := if be.balance == 0 && !includeAll then zerosLeft - 1 else zerosLeft
      if be.entry.additive then exitBalRev b includeAll zl rest
      else be.balance - be.entry.amount

/-- Sum of the amounts of the entries of a balance-entry list, in cents. -/
def entrySum (l : List BalanceEntry) : Int :=
  (l.map (fun be => be.entry.amount)).sum

/-! ### Lemmas about the overdue-date walk -/

theorem getLast?_cons_eq {α : Type} (a : α) (l : List α) :
    (a :: l).getLast? = some (l.getLast?.getD a) := by
  induction l generalizing a with
  | nil => rfl
  | cons b l ih =>
    rw [List.getLast?_cons_cons, ih b]
    rfl

/-- The fold of `accounting.py:39-42` keeps the date of the last entry
whose post-apply running balance is ≤ 0 (falling back to the
accumulator's initial value). -/
theorem foldl_last_non_overdue (l : List AccountEntry) (b : Int) (lno : Option Nat) :
    (l.foldl (fun (st : Int × Option Nat) e =>
        let rb := st.1 + e.amount
        (rb, if rb ≤ 0 then some e.date else st.2)) (b, lno)).2 =
      match ((l.zip (postBals b l)).filter (fun p => p.2 ≤ 0)).getLast? with
      | some p => some p.1.date
      | none => lno := by
  induction l generalizing b lno with
  | nil => rfl
  | cons e es ih =>
    simp only [List.foldl_cons, postBals, List.zip_cons_cons, List.filter_cons]
    by_cases h : (b + e.amount ≤ 0)
    · rw [if_pos h]
      have hd : (decide (((e, b + e.amount) : AccountEntry × Int).2 ≤ 0)) = true := by
        simpa using h
      rw [if_pos hd, ih, getLast?_cons_eq]
      cases hrest : ((es.zip (postBals (b + e.amount) es)).filter
          (fun p => p.2 ≤ 0)).getLast? with
      | none => rfl
      | some p => rfl
    · rw [if_neg h]
      have hd : ¬(decide (((e, b + e.amount) : AccountEntry × Int).2 ≤ 0)) = true := by
        simpa using h
      rw [if_neg hd, ih]

/-! ### Lemmas about the cap accumulator -/

namespace CappedRule

theorem get_accumulated_amount_append (capId : String) (y : Nat)
    (db : List CapEntry) (e : CapEntry) :
    get_accumulated_amount capId y (db ++ [e]) =
      get_accumulated_amount capId y db +
        (if e.year == y && e.tags.contains (capTag capId) then e.amount else 0) := by
  unfold get_accumulated_amount
  rw [List.filter_append, List.map_append, List.sum_append]
  cases hb : (e.year == y && e.tags.contains (capTag capId)) with
  | false =>
    have hp : ¬(e.year = y ∧ capTag capId ∈ e.tags) := by
      intro ⟨h1, h2⟩
      rw [Bool.and_eq_false_iff] at hb
      rcases hb with hb | hb
      · exact absurd h1 (by simpa using hb)
      · exact absurd h2 (by simpa [List.elem_iff] using hb)
    simp [List.filter_cons, hp]
  | true =>
    rw [Bool.and_eq_true] at hb
    have h1 : e.year = y := by simpa using hb.1
    have h2 : capTag capId ∈ e.tags := by simpa [List.elem_iff] using hb.2
    simp [List.filter_cons, h1, h2]

theorem contains_appended_tag (l : List String) (a : String) :
    (l ++ [a]).contains a = true := by
  induction l with
  | nil => simp [List.contains_cons]
  | cons x xs ih => simp [List.contains_cons, ih]

/-- The entry appended to the store by `capStep` always carries the cap tag
and keeps its year, and its final amount is zero at the cap, the clipped
remainder when crossing the cap, and its own amount otherwise. -/
theorem capStep_db (capId note : String) (cap : Int) (dropOverCap : Bool)
    (nowYear : Nat) (db : List CapEntry) (e : CapEntry) :
    ∃ a : Int,
      (capStep capId cap dropOverCap note nowYear db e).1 =
        db ++ [{ (capStep capId cap dropOverCap note nowYear db e).2 with
                  year := e.year, amount := a }] ∧
      (capStep capId cap dropOverCap note nowYear db e).2.year = e.year ∧
      (capStep capId cap dropOverCap note nowYear db e).2.amount = a ∧
      (capStep capId cap dropOverCap note nowYear db e).2.tags =
        e.tags ++ [capTag capId] ∧
      ((cap ≤ get_accumulated_amount capId nowYear db ∧ a = 0) ∨
       (get_accumulated_amount capId nowYear db < cap ∧
        cap < get_accumulated_amount capId nowYear db + e.amount ∧
        a = cap - get_accumulated_amount capId nowYear db) ∨
       (get_accumulated_amount capId nowYear db + e.amount ≤ cap ∧ a = e.amount)) := by
  unfold capStep
  dsimp only
  split
  · next h =>
    split
    · exact ⟨0, rfl, rfl, rfl, rfl, Or.inl ⟨h, rfl⟩⟩
    · exact ⟨0, rfl, rfl, rfl, rfl, Or.inl ⟨h, rfl⟩⟩
  · next h =>
    split
    · next h2 =>
      exact ⟨cap - get_accumulated_amount capId nowYear db, rfl, rfl, rfl, rfl,
        Or.inr (Or.inl ⟨by omega, h2, rfl⟩)⟩
    · next h2 =>
      exact ⟨e.amount, rfl, rfl, rfl, rfl, Or.inr (Or.inr ⟨by omega, rfl⟩)⟩

/-- One `capStep` on a current-year, non-negative candidate keeps the
current-year tagged sum within a non-negative cap and never decreases it. -/
theorem capStep_acc (capId note : String) (cap : Int) (dropOverCap : Bool)
    (nowYear : Nat) (db : List CapEntry) (e : CapEntry)
    (hdb : get_accumulated_amount capId nowYear db ≤ cap)
    (hy : e.year = nowYear) (ha : 0 ≤ e.amount) :
    get_accumulated_amount capId nowYear db ≤
      get_accumulated_amount capId nowYear
        (capStep capId cap dropOverCap note nowYear db e).1 ∧
    get_accumulated_amount capId nowYear
      (capStep capId cap dropOverCap note nowYear db e).1 ≤ cap := by
  obtain ⟨a, hdb', _, _, htags, hcases⟩ :=
    capStep_db capId note cap dropOverCap nowYear db e
  rw [hdb', get_accumulated_amount_append]
  have hcond : ((({ (capStep capId cap dropOverCap note nowYear db e).2 with
      year := e.year, amount := a } : CapEntry).year == nowYear) &&
      (({ (capStep capId cap dropOverCap note nowYear db e).2 with
      year := e.year, amount := a } : CapEntry).tags.contains (capTag capId))) = true := by
    simp only [hy, beq_self_eq_true, Bool.true_and, htags]
    exact contains_appended_tag e.tags (capTag capId)
  rw [if_pos hcond]
  have hproj : ({ (capStep capId cap dropOverCap note nowYear db e).2 with
      year := e.year, amount := a } : CapEntry).amount = a := rfl
  rw [hproj]
  rcases hcases with ⟨h1, h2⟩ | ⟨h1, h2, h3⟩ | ⟨h1, h2⟩ <;> omega

theorem capRun_append (capId note : String) (cap : Int) (dropOverCap : Bool)
    (nowYear : Nat) (db : List CapEntry) (l1 l2 : List CapEntry) :
    (capRun capId cap dropOverCap note nowYear db (l1 ++ l2)).1 =
      (capRun capId cap dropOverCap note nowYear
        (capRun capId cap dropOverCap note nowYear db l1).1 l2).1 := by
  induction l1 generalizing db with
  | nil => rfl
  | cons e es ih =>
    simp only [List.cons_append, capRun]
    exact ih _

/-- Running the cap filter over current-year, non-negative candidates keeps
the current-year tagged sum within a non-negative cap and never decreases
it. -/
theorem capRun_acc (capId note : String) (cap : Int) (dropOverCap : Bool)
    (nowYear : Nat) (db : List CapEntry) (es : List CapEntry)
    (hdb : get_accumulated_amount capId nowYear db ≤ cap)
    (hes : ∀ e ∈ es, e.year = nowYear ∧ 0 ≤ e.amount) :
    get_accumulated_amount capId nowYear db ≤
      get_accumulated_amount capId nowYear
        (capRun capId cap dropOverCap note nowYear db es).1 ∧
    get_accumulated_amount capId nowYear
      (capRun capId cap dropOverCap note nowYear db es).1 ≤ cap := by
  induction es generalizing db with
  | nil => exact ⟨le_refl _, hdb⟩
  | cons e es ih =>
    obtain ⟨hy, ha⟩ := hes e (List.mem_cons_self e es)
    obtain ⟨hstep1, hstep2⟩ :=
      capStep_acc capId note cap dropOverCap nowYear db e hdb hy ha
    obtain ⟨hrun1, hrun2⟩ := ih _ hstep2 (fun x hx => hes x (List.mem_cons_of_mem e hx))
    exact ⟨le_trans hstep1 hrun1, hrun2⟩

end CappedRule

/-! ### Lemmas about the backward invoice walk -/

theorem computeSeq_eq_nil_iff (b : Int) (es : List AccountEntry) :
    computeSeq b es = [] ↔ es = [] := by
  cases es <;> simp [computeSeq]

theorem computeSeq_append_singleton (b : Int) (l : List AccountEntry) (e : AccountEntry) :
    computeSeq b (l ++ [e]) =
      computeSeq b l ++ [⟨e, applyEntry (finalBal b l) e⟩] := by
  induction l generalizing b with
  | nil => rfl
  | cons x xs ih => simp [computeSeq, finalBal, ih]

theorem headBalD_append_singleton (b : Int) (l : List BalanceEntry) (a : BalanceEntry) :
    headBalD b (l ++ [a]) = headBalD a.balance l := by
  cases l <;> rfl

/-- The head of the reversed balance sequence carries the final running
balance. -/
theorem headBalD_reverse_computeSeq (es : List AccountEntry) (b : Int) :
    headBalD b ((computeSeq b es).reverse) = finalBal b es := by
  induction es generalizing b with
  | nil => rfl
  | cons e es ih =>
    simp only [computeSeq, List.reverse_cons, finalBal]
    rw [headBalD_append_singleton]
    exact ih (applyEntry b e)

/-- The reversed balance sequence is coherent. -/
theorem goodRevFrom_reverse_computeSeq (b : Int) (es : List AccountEntry) :
    goodRevFrom b ((computeSeq b es).reverse) := by
  induction es using List.reverseRecOn with
  | nil => trivial
  | append_singleton l e ih =>
    simp only [computeSeq_append_singleton, List.reverse_append,
      List.reverse_singleton, List.singleton_append]
    refine ⟨?_, ih⟩
    rw [headBalD_reverse_computeSeq]

/-- Every element of the balance sequence wraps an entry of the input
list. -/
theorem entry_mem_of_mem_computeSeq (es : List AccountEntry) :
    ∀ (b : Int) (be : BalanceEntry), be ∈ computeSeq b es → be.entry ∈ es := by
  induction es with
  | nil => intro b be h; exact absurd h (by simp [computeSeq])
  | cons e es ih =>
    intro b be h
    rcases List.mem_cons.mp h with h | h
    · subst h; exact List.mem_cons_self _ _
    · exact List.mem_cons_of_mem _ (ih _ be h)

/-- Dropping invisible entries — all additive and of zero amount — from a
coherent reversed balance list preserves its head balance and coherence. -/
theorem goodRevFrom_filter_visible (b : Int) (r : List BalanceEntry)
    (hg : goodRevFrom b r)
    (hinv : ∀ be ∈ r, be.entry.visible = false →
      be.entry.additive = true ∧ be.entry.amount = 0) :
    headBalD b (r.filter (fun be => be.entry.visible)) = headBalD b r ∧
    goodRevFrom b (r.filter (fun be => be.entry.visible)) := by
  induction r with
  | nil => exact ⟨rfl, trivial⟩
  | cons be rest ih =>
    obtain ⟨h1, h2⟩ := hg
    obtain ⟨ihh, ihg⟩ := ih h2 (fun x hx hv => hinv x (List.mem_cons_of_mem _ hx) hv)
    by_cases hv : be.entry.visible
    · rw [List.filter_cons_of_pos (by simpa using hv)]
      exact ⟨rfl, ⟨by rw [h1, ihh], ihg⟩⟩
    · have hv' : be.entry.visible = false := by simpa using hv
      obtain ⟨hadd, hz⟩ := hinv be (List.mem_cons_self _ _) hv'
      rw [List.filter_cons_of_neg (by simpa using hv)]
      refine ⟨?_, ihg⟩
      rw [ihh]
      show headBalD b rest = headBalD b (be :: rest)
      have : headBalD b (be :: rest) = be.balance := rfl
      rw [this, h1]
      unfold applyEntry
      rw [hadd, if_pos rfl, hz, add_zero]

/-- The amounts collected by the backward walk over a coherent reversed
list telescope to the head balance minus the stop balance. -/
theorem entrySum_selectEntriesRev (includeAll : Bool) (r : List BalanceEntry) :
    ∀ (zl : Nat) (b : Int), goodRevFrom b r →
      entrySum (selectEntriesRev includeAll zl r) =
        headBalD b r - exitBalRev b includeAll zl r := by
  induction r with
  | nil =>
    intro zl b _
    show (0 : Int) = b - b
    omega
  | cons be rest ih =>
    intro zl b hg
    obtain ⟨h1, h2⟩ := hg
    unfold selectEntriesRev exitBalRev
    by_cases hstop : (be.balance == 0 && !includeAll && zl == 0) = true
    · rw [if_pos hstop, if_pos hstop]
      show (0 : Int) = be.balance - be.balance
      omega
    · rw [if_neg hstop, if_neg hstop]
      by_cases hadd : be.entry.additive
      · rw [if_pos hadd, if_pos hadd]
        show be.entry.amount + entrySum (selectEntriesRev includeAll _ rest) = _
        rw [ih _ b h2]
        have hb : be.balance = headBalD b rest + be.entry.amount := by
          rw [h1]; unfold applyEntry; rw [if_pos hadd]
        show be.entry.amount +
          (headBalD b rest - exitBalRev b includeAll _ rest) =
          be.balance - exitBalRev b includeAll _ rest
        omega
      · rw [if_neg hadd, if_neg hadd]
        show be.entry.amount + 0 = be.balance - (be.balance - be.entry.amount)
        omega

/-- On a coherent reversed list starting from balance 0, the walk always
stops at balance 0: a zero-balance stop entry has balance 0 by the stop
condition, a collected non-additive entry has pre-apply balance 0 because
its recorded balance equals its own amount, and exhaustion reaches the
start balance 0. -/
theorem exitBalRev_eq_zero (includeAll : Bool) (r : List BalanceEntry) :
    ∀ (zl : Nat), goodRevFrom 0 r → exitBalRev 0 includeAll zl r = 0 := by
  induction r with
  | nil => intro zl _; rfl
  | cons be rest ih =>
    intro zl hg
    obtain ⟨h1, h2⟩ := hg
    unfold exitBalRev
    by_cases hstop : (be.balance == 0 && !includeAll && zl == 0) = true
    · rw [if_pos hstop]
      have hbz : be.balance = 0 := by
        simp only [Bool.and_eq_true, beq_iff_eq] at hstop
        exact hstop.1.1
      exact hbz
    · rw [if_neg hstop]
      by_cases hadd : be.entry.additive
      · rw [if_pos hadd]
        exact ih _ h2
      · rw [if_neg hadd]
        have hb : be.balance = be.entry.amount := by
          rw [h1]; unfold applyEntry; rw [if_neg hadd]
        omega

theorem sumAmounts_map_entry (l : List BalanceEntry) :
    sumAmounts (l.map (fun be => be.entry)) = entrySum l := by
  simp only [sumAmounts, entrySum, List.map_map]
  rfl

/-- C2, amended: whenever every non-additive entry of the account is
visible and the assembly succeeds (so every invisible entry has zero
amount), the sum of the selected entries — the invoice's derived total —
equals the balance computed by the running-balance sequence.  The command
itself contains no such comparison: nothing aborts on a mismatch (see the
counterexample with an invisible reset entry). -/
theorem assembled_total_eq_balance (includeAll : Bool) (es : List AccountEntry)
    (sel : List AccountEntry)
    (hvis : ∀ e ∈ es, e.visible = false → e.additive = true)
    (hok : assembleForAccount includeAll es = Except.ok sel) :
    sumAmounts sel = finalBal 0 es := by
  simp only [assembleForAccount] at hok
  by_cases hany : ((computeSeq 0 es).any
      fun be => !be.entry.visible && be.entry.amount != 0) = true
  · rw [if_pos hany] at hok
    exact absurd hok (by simp)
  · rw [if_neg hany] at hok
    have hsel : ((selectEntriesRev includeAll (if finalBal 0 es < 0 then 1 else 0)
        (((computeSeq 0 es).filter (fun be => be.entry.visible)).reverse)).map
          (fun be => be.entry)) = sel := by
      injection hok
    have hinv : ∀ be ∈ (computeSeq 0 es).reverse, be.entry.visible = false →
        be.entry.additive = true ∧ be.entry.amount = 0 := by
      intro be hbe hv
      have hmem : be ∈ computeSeq 0 es := List.mem_reverse.mp hbe
      refine ⟨hvis be.entry (entry_mem_of_mem_computeSeq es 0 be hmem) hv, ?_⟩
      have := (List.any_eq_true.not.mp hany)
      push_neg at this
      have hbe' := this be hmem
      simp only [hv, Bool.not_false, Bool.true_and, bne_iff_ne, ne_eq,
        not_not] at hbe'
      exact hbe'
    have hgood0 : goodRevFrom 0 ((computeSeq 0 es).reverse) :=
      goodRevFrom_reverse_computeSeq 0 es
    obtain ⟨hh, hgood⟩ := goodRevFrom_filter_visible 0 _ hgood0 hinv
    rw [← hsel, sumAmounts_map_entry]
    rw [← List.filter_reverse]
    rw [entrySum_selectEntriesRev includeAll _ _ 0 hgood]
    rw [exitBalRev_eq_zero includeAll _ _ hgood]
    rw [hh, headBalD_reverse_computeSeq]
    omega

/-- C2, amended claim witness: for scenario B — all entries visible, with
a reset partway through — the assembly succeeds and the selected entries
sum to the −20 € balance of the running-balance sequence. -/
theorem assembled_total_eq_balance_witness :
    assembleForAccount false scenarioB =
      Except.ok [⟨3, 2000, true, true⟩, ⟨2, -4000, false, true⟩] ∧
    sumAmounts [(⟨3, 2000, true, true⟩ : AccountEntry), ⟨2, -4000, false, true⟩] =
      finalBal 0 scenarioB :=
  ⟨rfl, assembled_total_eq_balance false scenarioB
    [⟨3, 2000, true, true⟩, ⟨2, -4000, false, true⟩] (by decide) rfl⟩

/-- C5, amended: the accumulator is the tagged sum for the processing-time
current year; for qualifying entries dated in that year with non-negative
amounts, starting from a store whose current-year tagged sum is within the
cap, the tagged sum after any prefix of the processing never exceeds the
cap and never decreases as further entries are processed. -/
theorem cap_invariant_current_year
    (capId note : String) (cap : Int) (dropOverCap : Bool) (nowYear : Nat)
    (db : List CapEntry) (l1 l2 : List CapEntry)
    (hdb : CappedRule.get_accumulated_amount capId nowYear db ≤ cap)
    (hes : ∀ e ∈ l1 ++ l2, e.year = nowYear ∧ 0 ≤ e.amount) :
    CappedRule.get_accumulated_amount capId nowYear
        (CappedRule.capRun capId cap dropOverCap note nowYear db (l1 ++ l2)).1 ≤ cap ∧
    CappedRule.get_accumulated_amount capId nowYear
        (CappedRule.capRun capId cap dropOverCap note nowYear db l1).1 ≤
      CappedRule.get_accumulated_amount capId nowYear
        (CappedRule.capRun capId cap dropOverCap note nowYear db (l1 ++ l2)).1 := by
  have hes1 : ∀ e ∈ l1, e.year = nowYear ∧ 0 ≤ e.amount :=
    fun e he => hes e (List.mem_append_left l2 he)
  have hes2 : ∀ e ∈ l2, e.year = nowYear ∧ 0 ≤ e.amount :=
    fun e he => hes e (List.mem_append_right l1 he)
  obtain ⟨h11, h12⟩ :=
    CappedRule.capRun_acc capId note cap dropOverCap nowYear db l1 hdb hes1
  obtain ⟨h21, h22⟩ :=
    CappedRule.capRun_acc capId note cap dropOverCap nowYear _ l2 h12 hes2
  rw [CappedRule.capRun_append capId note cap dropOverCap nowYear db l1 l2]
  exact ⟨h22, h21⟩

/-- C5, witness for the amended invariant: cap 90 €, empty store, prefix
[60 €] and suffix [50 €, 10 €] all dated in the processing year: the
tagged sum stays within 90 € and does not decrease from the prefix to the
whole run. -/
theorem cap_invariant_current_year_witness :
    CappedRule.get_accumulated_amount "kurssi" 2025
        (CappedRule.capRun "kurssi" 9000 false capNote90 2025 []
          ([capCand60] ++ [capCand50, capCand10])).1 ≤ 9000 ∧
    CappedRule.get_accumulated_amount "kurssi" 2025
        (CappedRule.capRun "kurssi" 9000 false capNote90 2025 [] [capCand60]).1 ≤
      CappedRule.get_accumulated_amount "kurssi" 2025
        (CappedRule.capRun "kurssi" 9000 false capNote90 2025 []
          ([capCand60] ++ [capCand50, capCand10])).1 :=
  cap_invariant_current_year "kurssi" capNote90 9000 false 2025 []
    [capCand60] [capCand50, capCand10] (by decide) (by decide)

/-! ### Claim theorems -/

/-- C1, counterexample: on the code's `get_balance`, the account of
scenario B has balance −20 € (the sum of the entries dated on or after the
latest non-additive entry: −40 + 20), not the claimed 80 €. -/
theorem scenarioB_balance_not_80 :
    AccountBalance.get_balance scenarioB none = -2000 ∧
    AccountBalance.get_balance scenarioB none ≠ 8000 := by decide

/-- C1, amended: for scenario B, both the code's `get_balance` and the
running-balance final total give −20 € (not 80 €), and the invoice
assembly walk selects exactly the last two entries — the +20 and the reset
— never the original +100. -/
theorem scenarioB_balance_and_selection :
    AccountBalance.get_balance scenarioB none = -2000 ∧
    finalBal 0 scenarioB = -2000 ∧
    assembleForAccount false scenarioB =
      Except.ok [⟨3, 2000, true, true⟩, ⟨2, -4000, false, true⟩] :=
  ⟨rfl, rfl, rfl⟩

/-- C2, counterexample: for an account whose entries are +50 (visible
additive), an invisible zero-amount reset, and +30 (visible additive), the
assembly succeeds (no abort) and selects both visible entries, whose sum
80 € differs from the balance 30 € computed by the running-balance
sequence: the run emits the invoice on a mismatch instead of aborting. -/
theorem invoice_total_mismatch_not_aborted :
    assembleForAccount false invisibleResetEntries =
      Except.ok [⟨3, 3000, true, true⟩, ⟨1, 5000, true, true⟩] ∧
    sumAmounts [⟨3, 3000, true, true⟩, ⟨1, 5000, true, true⟩] = 8000 ∧
    finalBal 0 invisibleResetEntries = 3000 ∧
    (8000 : Int) ≠ 3000 := by
  refine ⟨rfl, rfl, rfl, ?_⟩
  decide

/-- C3: the `Account.balance` property (`models.py:38`) and the
invoice-generation command (`invoice.py:230`) call
`AccountBalance(...).compute()`, and the balance-report command
(`calculatebalances.py:49`) calls `account.compute_balance(...)`; neither
name is among the attributes those classes define, so both lookups raise
`AttributeError`, while `get_balance` is the defined balance computation. -/
theorem balance_compute_methods_missing :
    accountBalanceComputeCall = Except.error "AttributeError: compute" ∧
    accountComputeBalanceCall = Except.error "AttributeError: compute_balance" ∧
    pyGetattr accountBalanceMethods "get_balance" = Except.ok "get_balance" :=
  ⟨rfl, rfl, rfl⟩

/-- C4: with a 90 € cap over qualifying entries of 60 €, 50 € and 10 € in
the same account and processing year, the first entry passes unmodified and
the second is clipped to 30 € with the cap note; but with drop-on-cap
configured, the third entry is not dropped: its `delete()` is called and
then — the loop body lacking the `continue` of the commented-out
predecessor implementation (`rules.py:418-437`) — it is still zeroed,
annotated, tagged, re-saved and yielded, exactly as in the non-drop
configuration; the tagged accumulator ends at the 90 € cap. -/
theorem cap_scenario_drop_on_cap_entry_still_yielded :
    (CappedRule.capRun "kurssi" 9000 true capNote90 2025 [] [capCand60, capCand50, capCand10]).2 =
      [⟨2025, 6000, "Lento", [capTag "kurssi"], false⟩,
       ⟨2025, 3000, "Lento" ++ ", " ++ capNote90, [capTag "kurssi"], false⟩,
       ⟨2025, 0, "Lento" ++ ", " ++ capNote90, [capTag "kurssi"], true⟩] ∧
    (CappedRule.capRun "kurssi" 9000 false capNote90 2025 [] [capCand60, capCand50, capCand10]).2 =
      [⟨2025, 6000, "Lento", [capTag "kurssi"], false⟩,
       ⟨2025, 3000, "Lento" ++ ", " ++ capNote90, [capTag "kurssi"], false⟩,
       ⟨2025, 0, "Lento" ++ ", " ++ capNote90, [capTag "kurssi"], false⟩] ∧
    CappedRule.get_accumulated_amount "kurssi" 2025
      (CappedRule.capRun "kurssi" 9000 true capNote90 2025 [] [capCand60, capCand50, capCand10]).1 = 9000 :=
  ⟨rfl, rfl, rfl⟩

/-- C5, counterexample: the accumulator is read for the processing-time
current year (`timezone.now().year`), not the entry's calendar year: two
60 € entries dated in 2024 and processed in 2025 under a 90 € cap both
pass unclipped, and the tagged sum for their account and calendar year 2024
ends at 120 €, exceeding the cap. -/
theorem cap_sum_exceeds_cap_for_prior_year_entries :
    CappedRule.get_accumulated_amount "kurssi" 2024
      (CappedRule.capRun "kurssi" 9000 false capNote90 2025 []
        [capCandPrevYear60, capCandPrevYear60]).1 = 12000 ∧
    (9000 : Int) < 12000 := by
  refine ⟨rfl, ?_⟩
  decide

/-- C6, counterexample: for additive entries +10, −10, +5 the claim's
reading (date of the first entry whose post-apply balance is > 0) gives
date 1, but the source returns date 2 — the date of the last entry whose
post-apply balance is ≤ 0. -/
theorem last_non_overdue_date_not_first_positive :
    claimed_last_non_overdue_date dipToZeroEntries = some 1 ∧
    AccountBalance.get_last_non_overdue_date dipToZeroEntries = some 2 :=
  ⟨rfl, rfl⟩

/-- C6, amended: when the current balance is ≤ 0 the query returns `none`;
otherwise it returns the date of the last entry — over the entries since
the latest reset, in date order, under an additive running total from 0 —
whose post-apply balance is ≤ 0; when every post-apply balance is positive
it falls back to the latest reset entry's date if a reset exists, else the
first entry's date. -/
theorem last_non_overdue_date_characterization (es : List AccountEntry) :
    AccountBalance.get_last_non_overdue_date es =
      if AccountBalance.get_balance es none ≤ 0 then none
      else
        match lastNonPositiveDate 0 (AccountBalance.get_entries_since_last_balance es) with
        | some d => some d
        | none =>
          match AccountBalance.get_latest_balance_entry es with
          | some lb => some lb.date
          | none =>
            (AccountBalance.get_entries_since_last_balance es).head?.map
              (fun e => e.date) := by
  unfold AccountBalance.get_last_non_overdue_date lastNonPositiveDate
  by_cases h : AccountBalance.get_balance es none ≤ 0
  · rw [if_pos h, if_pos h]
  · rw [if_neg h, if_neg h]
    simp only [foldl_last_non_overdue]
    cases hl : (((AccountBalance.get_entries_since_last_balance es).zip
        (postBals 0 (AccountBalance.get_entries_since_last_balance es))).filter
        (fun p => p.2 ≤ 0)).getLast? with
    | none => rfl
    | some p => rfl

/-- C7, counterexample: when the wrapped rule raises, the restoration at
`rules.py:279` is never reached (there is no `try`/`finally`): a flight of
duration 20 min billed with a 30 min floor is left with duration 30 min
after `invoice` propagates the error. -/
theorem min_duration_not_restored_on_raise :
    (MinimumDurationRule.invoice 3000 (fun _ => true) none
      (fun _ => Except.error "boom") ⟨true, 2000⟩).2.duration = 3000 ∧
    (3000 : Int) ≠ 2000 := by
  refine ⟨rfl, ?_⟩
  decide

/-- C7, amended: when the wrapped rule returns normally, the event's
duration after `invoice` equals the duration it had before the call, and
the wrapped rule is evaluated against the event with duration overridden to
the floor exactly when minimum billing applies; when the wrapped rule
raises, the restoration is skipped and the event keeps the overridden
duration. -/
theorem min_duration_restored_on_normal_return
    (minDuration : Int) (aircraftMatch : FlightEvent → Bool) (minText : Option String)
    (inner : FlightEvent → Except String (List InvoiceLine)) (ev : FlightEvent)
    (lines : List InvoiceLine)
    (hok : inner (MinimumDurationRule.seenEvent minDuration aircraftMatch ev) =
      Except.ok lines) :
    (MinimumDurationRule.invoice minDuration aircraftMatch minText inner ev).2.duration =
      ev.duration ∧
    (MinimumDurationRule.seenEvent minDuration aircraftMatch ev).duration =
      (if MinimumDurationRule.applies minDuration aircraftMatch ev = true then minDuration
        else ev.duration) ∧
    ∀ msg, inner (MinimumDurationRule.seenEvent minDuration aircraftMatch ev) =
        Except.error msg →
      ev.isFlight = true →
      (MinimumDurationRule.invoice minDuration aircraftMatch minText inner ev).2 =
        MinimumDurationRule.seenEvent minDuration aircraftMatch ev := by
  refine ⟨?_, ?_, ?_⟩
  · unfold MinimumDurationRule.invoice
    by_cases hf : ev.isFlight
    · simp only [hf, if_true, hok]
    · simp [hf]
  · unfold MinimumDurationRule.seenEvent
    by_cases hap : MinimumDurationRule.applies minDuration aircraftMatch ev
    · simp only [hap, if_true]
    · simp only [hap, if_false]
      simp [hap]
  · intro msg herr _
    rw [hok] at herr
    exact absurd herr (by simp)

/-- C7, amended claim witness: a 20 min flight billed under a 30 min floor
by a rule that returns one line priced from the duration it sees: the
duration is restored to 20 min afterwards and the rule saw 30 min. -/
theorem min_duration_restored_on_normal_return_witness :
    (MinimumDurationRule.invoice 3000 (fun _ => true) (some "minimilaskutus")
        (fun e => Except.ok [⟨"Lento", e.duration⟩]) ⟨true, 2000⟩).2.duration =
      (⟨true, 2000⟩ : FlightEvent).duration ∧
    (MinimumDurationRule.seenEvent 3000 (fun _ => true)
        (⟨true, 2000⟩ : FlightEvent)).duration =
      (if MinimumDurationRule.applies 3000 (fun _ => true)
          (⟨true, 2000⟩ : FlightEvent) = true then 3000
        else (⟨true, 2000⟩ : FlightEvent).duration) :=
  ⟨(min_duration_restored_on_normal_return 3000 (fun _ => true) (some "minimilaskutus")
      (fun e => Except.ok [⟨"Lento", e.duration⟩]) ⟨true, 2000⟩
      [⟨"Lento", 3000⟩] rfl).1,
   (min_duration_restored_on_normal_return 3000 (fun _ => true) (some "minimilaskutus")
      (fun e => Except.ok [⟨"Lento", e.duration⟩]) ⟨true, 2000⟩
      [⟨"Lento", 3000⟩] rfl).2.1⟩

/-- C8: refunding an event whose linked charge entries are 45 € and 15 €
creates exactly one compensating entry of −60 € recorded as the event's
refund entry; refunding the same event again, and refunding an event whose
charge total is zero, are no-ops creating no entries. -/
theorem refund_event_scenario :
    RuleEngine.refund_event "Korjaus: Hyvitys" refundScenarioEvent =
      (some refundScenarioEntry,
        { refundScenarioEvent with
            entries := refundScenarioEvent.entries ++ [refundScenarioEntry],
            refundEntry := some refundScenarioEntry }) ∧
    RuleEngine.refund_event "Korjaus: Hyvitys"
        (RuleEngine.refund_event "Korjaus: Hyvitys" refundScenarioEvent).2 =
      (none, (RuleEngine.refund_event "Korjaus: Hyvitys" refundScenarioEvent).2) ∧
    RuleEngine.refund_event "Korjaus: Hyvitys"
        (⟨"1002", [⟨4500, true, "a"⟩, ⟨-4500, true, "b"⟩], none⟩ : EngineEvent) =
      (none, ⟨"1002", [⟨4500, true, "a"⟩, ⟨-4500, true, "b"⟩], none⟩) :=
  ⟨rfl, rfl, rfl⟩

/-- C9: `process_event` has no guard against reprocessing and
`AccountEntry.check_duplicate` is an unimplemented `pass` stub, so calling
`process_event` a second time on an event that already has a linked entry
creates and links a second entry: the linked set grows from one to two
entries instead of staying unchanged. -/
theorem process_event_twice_duplicates_entries :
    (RuleEngine.process_event [] flightChargeRule
      (⟨"1001", [], none⟩ : EngineEvent)).2.entries.length = 1 ∧
    (RuleEngine.process_event [] flightChargeRule
      (RuleEngine.process_event [] flightChargeRule
        (⟨"1001", [], none⟩ : EngineEvent)).2).2.entries.length = 2 := by
  refine ⟨rfl, rfl⟩

/-- C10: `get_balance(until_date)` looks up the latest non-additive entry
over the whole history; when that entry is dated after `until_date`, the
date filters leave no entries and the balance is 0 regardless of the
amounts dated on or before `until_date`. -/
theorem balance_zero_when_reset_after_cutoff
    (es : List AccountEntry) (d : Nat) (lb : AccountEntry)
    (hlb : AccountBalance.get_latest_balance_entry es = some lb)
    (hd : d < lb.date) :
    AccountBalance.get_balance es (some d) = 0 := by
  unfold AccountBalance.get_balance
  rw [hlb]
  have hnil : (es.filter (fun e => e.date ≤ d)).filter (fun e => lb.date ≤ e.date) = [] := by
    rw [List.filter_eq_nil_iff]
    intro e he
    have hed : e.date ≤ d := by
      have := List.of_mem_filter he
      simpa using this
    simp only [decide_eq_true_eq]
    omega
  simp [hnil, sumAmounts]

/-- C10, witness: an account with a +50 € entry on day 1 and a reset dated
day 10 has balance 0 as of day 5. -/
theorem balance_zero_when_reset_after_cutoff_witness :
    AccountBalance.get_balance
      [⟨1, 5000, true, true⟩, ⟨10, -100, false, true⟩] (some 5) = 0 :=
  balance_zero_when_reset_after_cutoff _ 5 ⟨10, -100, false, true⟩ rfl (by decide)

end Pik
